import Mathlib

/-!
Shallow embedding of `stock_market/metrics.py` (classes `Metrics` and
`USStockMarketMetrics`).

Modelling conventions:
* Trading days are integers (business-day indices), so `BDay(1)` is `+ 1`
  and `pandas` label slices `loc[st:ed]` are inclusive integer intervals.
* `pandas` float values are rationals (`ℚ`); `NaN` cells are `Option.none`.
* A `pandas` frequency is an arbitrary period-labelling map `Int → Int`;
  `resample(freq).mean()` groups the panel dates by their period label and
  takes the arithmetic mean of the non-missing values (`skipna` semantics),
  and `dropna` is modelled by returning `none` for periods with no values.
* Python exceptions are `Except PyErr`.
-/

namespace USEcon

/-- Python exception kinds that the translated code can raise. -/
inductive PyErr where
  | attributeError : PyErr
  | valueError : PyErr
  | keyError : PyErr
  | indexError : PyErr
deriving DecidableEq, Repr

/-- A membership window `(start, end)` as stored in the `tickers` dictionary:
`none` start means "member since before the tracked range", `none` end means
"still a member". -/
abbrev Window := Option Int × Option Int

/-- `d` is selected by the label slice `loc[st:ed]` of the panel
(`None` bounds are open ends, both bounds inclusive). -/
def inWindow (w : Window) (d : Int) : Bool :=
  (match w.1 with
   | none => true
   | some s => decide (s ≤ d)) &&
  (match w.2 with
   | none => true
   | some e => decide (d ≤ e))

/-- One entry of the `tickers` dictionary together with the feed's
`info.get('dividendYield')` answer for the ticker (`none` = key absent). -/
structure TickerData where
  name : String
  window : Window
  feedDividendYield : Option ℚ
deriving DecidableEq, Repr

/-- `metrics.py` lines 130-146: the loop building the aggregate
`Capitalization` column.  It starts from the all-zero series and, for each
ticker, adds `close × shares_outstanding` on the dates selected by
`loc[st:ed]` (dates outside the window are left untouched). -/
def capitalizationSeries (tickers : List TickerData)
    (close shares : String → Int → ℚ) : Int → ℚ :=
  tickers.foldl
    (fun cap t => fun d =>
      if inWindow t.window d then cap d + close t.name d * shares t.name d
      else cap d)
    (fun _ => 0)

/-- `metrics.py` lines 139-140: the loop building the aggregate
`Turnover ratio` column, `close × volume` added over each membership
window. -/
def turnoverValueSeries (tickers : List TickerData)
    (close volume : String → Int → ℚ) : Int → ℚ :=
  tickers.foldl
    (fun tv t => fun d =>
      if inWindow t.window d then tv d + close t.name d * volume t.name d
      else tv d)
    (fun _ => 0)

/-- `metrics.py` line 56 (`self.data.bfill(inplace=True)`): column-wise
backward fill.  The value of series `s` at a panel date `d` becomes the first
non-missing value of `s` at `d` or at any later panel position.  `dates` is
the panel's date index in order. -/
def bfillOn (dates : List Int) (s : Int → Option ℚ) (d : Int) : Option ℚ :=
  ((dates.dropWhile (fun x => x != d)).filterMap s).head?

/-- `metrics.py` lines 75-78: the reconciled fallback rows `f` (one row per
date: `(date, close, volume)`) are written into the delisted ticker's column
block, overwriting the panel cells at the row dates. -/
def mergeDelistedRows (close volume : Int → Option ℚ)
    (f : List (Int × ℚ × ℚ)) : (Int → Option ℚ) × (Int → Option ℚ) :=
  (fun d => match f.find? (fun r => r.1 == d) with
    | some r => some r.2.1
    | none => close d,
   fun d => match f.find? (fun r => r.1 == d) with
    | some r => some r.2.2
    | none => volume d)

/-- `metrics.py` lines 75-84: write the reconciled rows `f` for a delisted
ticker into the panel and then, if the last reconciled date `f.index[-1]`
precedes the membership end date `ed`, assign
`(f.iloc[-1, 0], 0.)` — the last reconciled close and a zero volume — to
every date in the slice `[f.index[-1] + BDay(1), ed]`. -/
def applyDelistedGapFill (close volume : Int → Option ℚ)
    (f : List (Int × ℚ × ℚ)) (ed : Int) :
    (Int → Option ℚ) × (Int → Option ℚ) :=
  let m := mergeDelistedRows close volume f
  match f.getLast? with
  | none => m
  | some r =>
    if r.1 < ed then
      (fun d => if r.1 + 1 ≤ d ∧ d ≤ ed then some r.2.1 else m.1 d,
       fun d => if r.1 + 1 ≤ d ∧ d ≤ ed then some 0 else m.2 d)
    else m

/-- `numpy` `astype('int64')` on a float series: truncation toward zero. -/
def pytrunc (q : ℚ) : ℤ := if 0 ≤ q then ⌊q⌋ else ⌈q⌉

/-- `metrics.py` lines 106-117: the multi-class share-count correction on the
feed path.  `cur` is `info.get('sharesOutstanding')`, `impl` is
`info.get('impliedSharesOutstanding')`, `hist` the (deduplicated)
`get_shares_full` series as `(date, count)` rows.  Python's `and`
short-circuits, so `hist.iloc[-1]` is only read when `cur` is present (an
empty series then raises `IndexError`).  When
`cur * 1.2 < hist.iloc[-1]` the whole series is multiplied by
`cur / (impl if present else hist.iloc[-1])` and cast with
`astype('int64')`. -/
def sharesCorrection (cur impl : Option ℚ) (hist : List (Int × ℚ)) :
    Except PyErr (List (Int × ℚ)) :=
  match cur with
  | none => .ok hist
  | some c =>
    match hist.getLast? with
    | none => .error .indexError
    | some lastRow =>
      if c * (6 / 5) < lastRow.2 then
        let s2 := impl.getD lastRow.2
        .ok (hist.map (fun p => (p.1, ((pytrunc (p.2 * (c / s2)) : ℤ) : ℚ))))
      else .ok hist

/-- In-place update of an association list keyed by date (Python dict
assignment semantics: replace the existing entry, else append). -/
def updateAssoc (acc : List (Int × ℚ)) (k : Int) (v : ℚ) : List (Int × ℚ) :=
  match acc with
  | [] => [(k, v)]
  | p :: rest => if p.1 = k then (k, v) :: rest else p :: updateAssoc rest k v

/-- `metrics.py` line 104 (`shares_outst.groupby(level=0).last()`): when the
feed reports duplicate dates, keep the most recent value per date (for a
date-sorted feed the first-occurrence order kept here is the sorted order). -/
def keepLastByDate (l : List (Int × ℚ)) : List (Int × ℚ) :=
  l.foldl (fun acc p => updateAssoc acc p.1 p.2) []

/-- The per-ticker inputs consumed by the shares-outstanding resolution loop
(`metrics.py` lines 86-117): whether the primary feed returned no
observations (`delisted`), the `hist_shares_outs` override entry, and the
feed's share-count data. -/
structure TickerSharesInput where
  name : String
  delisted : Bool
  override : Option (List (Int × ℚ))
  feedHist : List (Int × ℚ)
  feedCurrent : Option ℚ
  feedImplied : Option ℚ
deriving DecidableEq, Repr

/-- `metrics.py` lines 86-117, one iteration of the resolution loop: a
delisted ticker without an override raises
`ValueError('No data on shares outstanding for ...')`; any override is used
as-is; otherwise the feed history is deduplicated and the multi-class
correction applied. -/
def resolveSharesForTicker (t : TickerSharesInput) :
    Except PyErr (List (Int × ℚ)) :=
  if t.delisted then
    match t.override with
    | none => .error .valueError
    | some s => .ok s
  else
    match t.override with
    | some s => .ok s
    | none => sharesCorrection t.feedCurrent t.feedImplied (keepLastByDate t.feedHist)

/-- The whole resolution loop of `Metrics.__init__`: a raised exception
aborts construction, so the loop is the error-propagating fold of
`resolveSharesForTicker` over the ticker list. -/
def resolveAllShares : List TickerSharesInput →
    Except PyErr (List (String × List (Int × ℚ)))
  | [] => .ok []
  | t :: rest =>
    match resolveSharesForTicker t with
    | .error e => .error e
    | .ok s =>
      match resolveAllShares rest with
      | .error e => .error e
      | .ok r => .ok ((t.name, s) :: r)

/-- One row of `sp500_changes_since_2019.csv`: the change date, the
comma-split `added` cell (empty list when the cell is null) and the
comma-split `removed` cell. -/
structure ChangeRow where
  ts : Int
  added : List String
  removed : List String
deriving DecidableEq, Repr

/-- The mutable state of the backward replay in
`USStockMarketMetrics.get_sp500_historical_components`: the `ret` dict of
windows and the `all_components` list (which, unlike the dict, keeps
duplicates). -/
structure ReplayState where
  ret : List (String × Window)
  allComponents : List String
deriving DecidableEq, Repr

/-- Python `ret[k]` (read): `none` models a `KeyError`. -/
def lookupRet (r : List (String × Window)) (k : String) : Option Window :=
  match r.find? (fun p => p.1 == k) with
  | some p => some p.2
  | none => none

/-- Python `ret[k] = v`: replace the entry if the key exists, else append
(dict insertion order). -/
def setRet (r : List (String × Window)) (k : String) (v : Window) :
    List (String × Window) :=
  match r with
  | [] => [(k, v)]
  | p :: rest => if p.1 = k then (k, v) :: rest else p :: setRet rest k v

/-- The key list of the `ret` dict. -/
def keysOf (r : List (String × Window)) : List String := r.map Prod.fst

/-- `metrics.py` lines 383-385: for each added ticker `a` of a row,
`_, end = ret[a]` (a missing key raises `KeyError`) and
`ret[a] = (ts, end)`. -/
def applyAdds (ts : Int) : ReplayState → List String → Except PyErr ReplayState
  | st, [] => .ok st
  | st, a :: rest =>
    match lookupRet st.ret a with
    | none => .error .keyError
    | some w => applyAdds ts ⟨setRet st.ret a (some ts, w.2), st.allComponents⟩ rest

/-- `metrics.py` lines 387-389: for each removed ticker `r` of a row,
`ret[r] = (start, ts - BDay(1))` and `all_components.append(r)`. -/
def applyRemovals (start ts : Int) : ReplayState → List String → ReplayState
  | st, [] => st
  | st, r :: rest =>
    applyRemovals start ts
      ⟨setRet st.ret r (some start, some (ts - 1)), st.allComponents ++ [r]⟩ rest

/-- `metrics.py` lines 379-389: iterate the change rows in reverse
chronological order (`df[::-1]`), breaking at the first row dated before
`start`, processing first the added then the removed tickers of each row. -/
def replayRows (start : Int) : ReplayState → List ChangeRow → Except PyErr ReplayState
  | st, [] => .ok st
  | st, row :: rest =>
    if row.ts < start then .ok st
    else
      match applyAdds row.ts st row.added with
      | .error e => .error e
      | .ok st' => replayRows start (applyRemovals start row.ts st' row.removed) rest

/-- `metrics.py` line 374: `ret = {ticker: (start, None) for ticker in
all_components}`. -/
def initRet (start : Int) (current : List String) : List (String × Window) :=
  current.foldl (fun acc t => setRet acc t (some start, none)) []

/-- `USStockMarketMetrics.get_sp500_historical_components`
(`metrics.py` lines 370-403): build the initial windows from the current
membership list, replay the chronological change log backward, and raise
`ValueError('Some tickers were added twice during the implied period')`
when `len(all_components) > len(ret)`. -/
def get_sp500_historical_components (start : Int) (current : List String)
    (rowsChrono : List ChangeRow) : Except PyErr (List (String × Window)) :=
  match replayRows start ⟨initRet start current, current⟩ rowsChrono.reverse with
  | .error e => .error e
  | .ok st =>
    if st.ret.length < st.allComponents.length then .error .valueError
    else .ok st.ret

/-- Formalized from the claim's wording (not from the source): the change
log contains, within range, two additions of the same ticker with no removal
of that ticker in between (scanning chronologically, a ticker is added while
a previous addition of it has not been followed by a removal). -/
def claimHasDupAdd (start : Int) (rows : List ChangeRow) : Bool :=
  ((rows.filter (fun r => decide (start ≤ r.ts))).foldl
    (fun (st : Bool × List String) r =>
      (st.1 || r.added.any (fun a => st.2.contains a),
       (st.2.filter (fun t => !(r.removed.contains t))) ++ r.added))
    (false, [])).1

/-- Concrete change log for the C6 counterexample (chronological order):
ticker `A` is currently a member and is added at date `3` and again at date
`5` with no removal of `A` in between; `B` and `C` are removed tickers
making the rows well-formed. -/
def ex6Rows : List ChangeRow := [⟨3, ["A"], ["B"]⟩, ⟨5, ["A"], ["C"]⟩]

/-- The `stock_index_data` attribute slot of a `Metrics` object.  Python
objects have no fixed attribute layout: the outer `Option` is "was the
attribute ever assigned" (reading an unassigned attribute raises
`AttributeError`), the inner `Option` is the attribute's value versus
`None`. -/
structure VolState (α : Type) where
  stockIndexData : Option (Option α)

/-- `metrics.py` lines 156-159: `self.stock_index_data` is assigned only
inside `if stock_index is not None:`; with no index ticker the attribute is
never assigned at all. -/
def metricsInitStockIndex {α : Type} (stockIndex : Option String)
    (fetchAdjClose : String → α) : VolState α :=
  match stockIndex with
  | some idx => ⟨some (some (fetchAdjClose idx))⟩
  | none => ⟨none⟩

/-- `Metrics.get_annual_volatility` (`metrics.py` lines 314-317): read
`self.stock_index_data` (raising `AttributeError` when it was never
assigned), return `None` when it is `None`, otherwise run the EWMA
volatility pipeline (a library computation, abstracted as `volPipeline`). -/
def get_annual_volatility {α β : Type} (st : VolState α)
    (volPipeline : α → β) : Except PyErr (Option β) :=
  match st.stockIndexData with
  | none => .error .attributeError
  | some none => .ok none
  | some (some data) => .ok (some (volPipeline data))

/-- `resample(frequency).mean().dropna()` on an `Option`-valued daily
series: group the panel dates by their period label, take the mean of the
non-missing values (`skipna`), and yield `none` for periods with no values
(those rows are dropped by `dropna`). -/
def resampleMean (dates : List Int) (period : Int → Int)
    (s : Int → Option ℚ) : Int → Option ℚ :=
  fun p =>
    let vals := (dates.filter (fun d => period d == p)).filterMap s
    if vals.length = 0 then none else some (vals.sum / (vals.length : ℚ))

/-- The subset accumulation pattern of `metrics.py` lines 175-178, 241-245
and 279-284: `ret = pd.Series(0., index=self.data.index)` followed by
`ret += self.data.loc[st:ed, ...] * ...` per requested ticker.  The window
lookup `self.ticker_symbols[ticker]` raises `KeyError` for an untracked
name, and the `+=` aligns indexes, so any date outside a requested ticker's
window slice becomes `NaN` (`none`). -/
def subsetSeriesE (tickersL : List TickerData) (f g : String → Int → ℚ) :
    List String → (Int → Option ℚ) → Except PyErr (Int → Option ℚ)
  | [], acc => .ok acc
  | t :: rest, acc =>
    match tickersL.find? (fun td => td.name == t) with
    | none => .error .keyError
    | some td =>
      subsetSeriesE tickersL f g rest
        (fun d => match acc d with
          | none => none
          | some a =>
            if inWindow td.window d then some (a + f t d * g t d) else none)

/-- The membership window recorded for a ticker name in the `tickers`
dictionary (first entry with that name). -/
def windowOfTicker (tickersL : List TickerData) (name : String) : Window :=
  match tickersL.find? (fun td => td.name == name) with
  | some td => td.window
  | none => (none, none)

/-- `Metrics.get_capitalization` (`metrics.py` lines 161-179).  With no
ticker subset it resamples the aggregate `Capitalization` column.  With a
subset it accumulates the per-ticker series and then evaluates
`ret.resample(frequency).mean().ret.dropna()`: the attribute access `.ret`
on the resampled `Series` (whose index holds no label `'ret'`) always
raises `AttributeError` before `dropna` runs. -/
def get_capitalization (dates : List Int) (period : Int → Int)
    (tickersL : List TickerData) (close shares : String → Int → ℚ) :
    Option (List String) → Except PyErr (Int → Option ℚ)
  | none =>
    .ok (resampleMean dates period
      (fun d => some (capitalizationSeries tickersL close shares d)))
  | some ts =>
    match subsetSeriesE tickersL close shares ts (fun _ => some 0) with
    | .error e => .error e
    | .ok r =>
      let _resampled := resampleMean dates period r
      .error .attributeError

/-- `Metrics.get_daily_trading_value_ds` (`metrics.py` lines 237-246):
the aggregate `Turnover ratio` column, or the subset accumulation of
`close × volume`. -/
def get_daily_trading_value_ds (tickersL : List TickerData)
    (close volume : String → Int → ℚ) :
    Option (List String) → Except PyErr (Int → Option ℚ)
  | none => .ok (fun d => some (turnoverValueSeries tickersL close volume d))
  | some ts => subsetSeriesE tickersL close volume ts (fun _ => some 0)

/-- `Metrics.get_daily_turnover` (`metrics.py` lines 264-286): divide the
daily trading value by the matching capitalization *date by date*, then
resample the daily ratio series with a period mean. -/
def get_daily_turnover (dates : List Int) (period : Int → Int)
    (tickersL : List TickerData) (close volume shares : String → Int → ℚ) :
    Option (List String) → Except PyErr (Int → Option ℚ)
  | none =>
    match get_daily_trading_value_ds tickersL close volume none with
    | .error e => .error e
    | .ok tv =>
      .ok (resampleMean dates period
        (fun d => (tv d).map
          (fun a => a / capitalizationSeries tickersL close shares d)))
  | some ts =>
    match get_daily_trading_value_ds tickersL close volume (some ts) with
    | .error e => .error e
    | .ok tv =>
      match subsetSeriesE tickersL close shares ts (fun _ => some 0) with
      | .error e => .error e
      | .ok cap =>
        .ok (resampleMean dates period
          (fun d => match tv d, cap d with
            | some a, some b => some (a / b)
            | _, _ => none))

/-- `metrics.py` line 62: a feed that reports no dividend yield
(`info.get('dividendYield')` returns `None`) is recorded as a yield of
exactly `0.`. -/
def resolveDividendYield (feedYield : Option ℚ) : ℚ :=
  match feedYield with
  | none => 0
  | some y => y

/-- `Metrics.get_current_components` (`metrics.py` line 323): the tickers
whose window end is `None`. -/
def get_current_components (tickers : List TickerData) : List String :=
  (tickers.filter (fun t => t.window.2.isNone)).map (fun t => t.name)

/-- `metrics.py` lines 148-151: the numerator of the forward dividend yield,
accumulated over the construction loop.  The source guard is
`ticker in self.get_current_components()`; since the `tickers` dict keys are
unique this holds exactly when the ticker's own window end is `None`, which
is the condition used here.  Each current ticker contributes
`close × shares_outstanding` at the panel's last date times its recorded
dividend yield. -/
def dividendYieldNumerator (tickers : List TickerData)
    (close shares : String → Int → ℚ) (lastDate : Int) : ℚ :=
  tickers.foldl
    (fun acc t =>
      if t.window.2.isNone then
        acc + close t.name lastDate * shares t.name lastDate
          * resolveDividendYield t.feedDividendYield
      else acc)
    0

/-- `metrics.py` line 153: the accumulated numerator divided by the
aggregate capitalization at the panel's last date
(`self.capitalization.iloc[-1, 0]`). -/
def forwardDividendYield (tickers : List TickerData)
    (close shares : String → Int → ℚ) (lastDate : Int) : ℚ :=
  dividendYieldNumerator tickers close shares lastDate
    / capitalizationSeries tickers close shares lastDate

/-- Concrete panel for the C9 ratio-versus-average counterexample: one
always-active ticker over two dates with trading values `1, 3` and
capitalizations `1, 2`. -/
def ex9Tickers : List TickerData := [⟨"A", (none, none), none⟩]

/-- Close prices of the C9 panel (constant `1`). -/
def ex9Close : String → Int → ℚ := fun _ _ => 1

/-- Volumes of the C9 panel (`1` on date `0`, `3` on date `1`). -/
def ex9Volume : String → Int → ℚ := fun _ d => if d = 0 then 1 else 3

/-- Shares outstanding of the C9 panel (`1` on date `0`, `2` on date `1`). -/
def ex9Shares : String → Int → ℚ := fun _ d => if d = 0 then 1 else 2

/-- The two panel dates of the C9 example. -/
def ex9Dates : List Int := [0, 1]

/-- A single resampling period covering both C9 dates. -/
def ex9Period : Int → Int := fun _ => 0

/-- A currently active ticker whose feed reports no dividend yield
(`info.get('dividendYield')` is `None`), for the C10 instance. -/
def ex10Current : TickerData := ⟨"Z", (none, none), none⟩

/-- A currently active ticker with a reported dividend yield of `5%`, for
the C10 instance. -/
def ex10Other : TickerData := ⟨"Y", (none, none), some (1 / 20)⟩

/-- Concrete pre-`bfill` panel for the C2 counterexample: three panel dates,
the ticker's first feed observation is at date `2` (later than the panel
start `0`), with close `10` and volume `5` there. -/
def ex2Dates : List Int := [0, 1, 2]

/-- Close column of the C2 counterexample panel (missing before date `2`). -/
def ex2Close : Int → Option ℚ := fun d => if d = 2 then some 10 else none

/-- Volume column of the C2 counterexample panel (missing before date `2`;
the first observed volume is the nonzero value `5`). -/
def ex2Volume : Int → Option ℚ := fun d => if d = 2 then some 5 else none

end USEcon

namespace USEcon

/- ------------------------------------------------------------------ -/
/- Helper lemmas about the accumulation loops.                         -/
/- ------------------------------------------------------------------ -/

theorem foldl_fun_add (L : List TickerData) (g : TickerData → Int → ℚ)
    (w : TickerData → Int → Bool) (f0 : Int → ℚ) (d : Int) :
    (L.foldl (fun acc t => fun x => if w t x then acc x + g t x else acc x) f0) d
      = f0 d + (L.map (fun t => if w t d then g t d else 0)).sum := by
  induction L generalizing f0 with
  | nil => simp
  | cons t L ih =>
    simp only [List.foldl_cons, List.map_cons, List.sum_cons]
    rw [ih]
    by_cases h : w t d = true
    · simp [h]; ring
    · simp [h]

theorem sum_map_ite_eq_filter {α : Type} (L : List α) (p : α → Bool) (g : α → ℚ) :
    (L.map (fun t => if p t then g t else 0)).sum = ((L.filter p).map g).sum := by
  induction L with
  | nil => rfl
  | cons a L ih =>
    by_cases h : p a = true <;> simp [List.filter_cons, h, ih]

theorem capitalizationSeries_eq_sum (tickers : List TickerData)
    (close shares : String → Int → ℚ) (d : Int) :
    capitalizationSeries tickers close shares d
      = (tickers.map (fun t =>
          if inWindow t.window d then close t.name d * shares t.name d else 0)).sum := by
  have h := foldl_fun_add tickers
    (fun t x => close t.name x * shares t.name x)
    (fun t x => inWindow t.window x) (fun _ => 0) d
  simpa [capitalizationSeries] using h

theorem turnoverValueSeries_eq_sum (tickers : List TickerData)
    (close volume : String → Int → ℚ) (d : Int) :
    turnoverValueSeries tickers close volume d
      = (tickers.map (fun t =>
          if inWindow t.window d then close t.name d * volume t.name d else 0)).sum := by
  have h := foldl_fun_add tickers
    (fun t x => close t.name x * volume t.name x)
    (fun t x => inWindow t.window x) (fun _ => 0) d
  simpa [turnoverValueSeries] using h

/- ------------------------------------------------------------------ -/
/- C1                                                                  -/
/- ------------------------------------------------------------------ -/

/-- C1: for every date `d`, the aggregate capitalization built by the
construction loop equals the sum, over exactly the tickers whose membership
window contains `d`, of `close × shares_outstanding` at `d`; and a ticker
whose window does not contain `d` contributes exactly zero there (removing
it from the ticker list leaves the aggregate at `d` unchanged). -/
theorem capitalization_windowed_sum :
    (∀ (tickers : List TickerData) (close shares : String → Int → ℚ) (d : Int),
      capitalizationSeries tickers close shares d
        = ((tickers.filter (fun t => inWindow t.window d)).map
            (fun t => close t.name d * shares t.name d)).sum)
    ∧ (∀ (l₁ l₂ : List TickerData) (t : TickerData)
        (close shares : String → Int → ℚ) (d : Int),
        inWindow t.window d = false →
        capitalizationSeries (l₁ ++ t :: l₂) close shares d
          = capitalizationSeries (l₁ ++ l₂) close shares d) := by
  constructor
  · intro tickers close shares d
    rw [capitalizationSeries_eq_sum, sum_map_ite_eq_filter]
  · intro l₁ l₂ t close shares d hout
    rw [capitalizationSeries_eq_sum, capitalizationSeries_eq_sum]
    simp [hout]

/-- Witness for C1 at a concrete input: a ticker whose window `[5, 6]`
misses date `0` contributes nothing to the aggregate at `0`. -/
theorem capitalization_windowed_sum_witness :
    inWindow ((some 5 : Option Int), (some 6 : Option Int)) 0 = false ∧
    capitalizationSeries [⟨"A", (some 5, some 6), none⟩]
        (fun _ _ => 2) (fun _ _ => 3) 0
      = capitalizationSeries [] (fun _ _ => 2) (fun _ _ => 3) 0 :=
  ⟨by decide,
   capitalization_windowed_sum.2 [] [] ⟨"A", (some 5, some 6), none⟩
     (fun _ _ => 2) (fun _ _ => 3) 0 (by decide)⟩

/- ------------------------------------------------------------------ -/
/- C2                                                                  -/
/- ------------------------------------------------------------------ -/

theorem dropWhile_append_of_mem {d : Int} {pre : List Int} (rest : List Int)
    (hd : d ∈ pre) :
    (pre ++ rest).dropWhile (fun x => x != d)
      = (pre.dropWhile (fun x => x != d)) ++ rest := by
  induction pre with
  | nil => cases hd
  | cons a pre ih =>
    by_cases h : a = d
    · subst h
      simp [List.dropWhile_cons]
    · rcases List.mem_cons.mp hd with h' | h'
      · exact absurd h'.symm h
      · simp only [List.cons_append, List.dropWhile_cons]
        have hb : (a != d) = true := by simp [bne_iff_ne]; exact h
        simp [hb, ih h']

theorem filterMap_eq_of_forall_none {l : List Int} {s : Int → Option ℚ}
    (h : ∀ x ∈ l, s x = none) (rest : List Int) :
    (l ++ rest).filterMap s = rest.filterMap s := by
  induction l with
  | nil => rfl
  | cons a l ih =>
    have ha := h a (by simp)
    simp only [List.cons_append, List.filterMap_cons, ha]
    exact ih (fun x hx => h x (by simp [hx]))

theorem bfill_first_value {pre : List Int} (post : List Int) (f d : Int)
    {s : Int → Option ℚ} {a : ℚ}
    (hpre : ∀ x ∈ pre, s x = none) (hf : s f = some a) (hd : d ∈ pre) :
    bfillOn (pre ++ f :: post) s d = some a := by
  unfold bfillOn
  rw [dropWhile_append_of_mem (f :: post) hd]
  have hsub : ∀ x ∈ pre.dropWhile (fun x => x != d), s x = none := by
    intro x hx
    exact hpre x ((List.dropWhile_sublist _).subset hx)
  rw [filterMap_eq_of_forall_none hsub (f :: post)]
  simp [List.filterMap_cons, hf]

/-- Counterexample for C2 at a concrete input.  The ticker's first feed
observation is at panel date `2` (later than the panel start `0`), its first
observed volume is `5`.  Line 56's `bfill` fills the earlier dates of the
volume column with `5`, not with `0` as the claim states (the close column is
indeed filled with the first close). -/
theorem bfill_volume_not_zeroed :
    ex2Volume 0 = none ∧ ex2Volume 1 = none ∧ ex2Volume 2 = some 5 ∧
    bfillOn ex2Dates ex2Close 0 = some 10 ∧
    bfillOn ex2Dates ex2Volume 0 = some 5 ∧
    ¬ bfillOn ex2Dates ex2Volume 0 = some 0 := by
  refine ⟨rfl, rfl, rfl, ?_, ?_, ?_⟩ <;> decide

/-- C2 as amended: for a ticker whose first available observation `f` is
later than the panel start, every panel date before `f` is backfilled with
the ticker's first available close price *and its first available volume*
(the volume is not forced to zero; it equals zero only when the first
observed volume happens to be zero). -/
theorem bfill_entry_first_observation (pre post : List Int) (f d : Int)
    (sclose svolume : Int → Option ℚ) (c v : ℚ)
    (hcpre : ∀ x ∈ pre, sclose x = none)
    (hvpre : ∀ x ∈ pre, svolume x = none)
    (hcf : sclose f = some c) (hvf : svolume f = some v) (hd : d ∈ pre) :
    bfillOn (pre ++ f :: post) sclose d = some c ∧
    bfillOn (pre ++ f :: post) svolume d = some v :=
  ⟨bfill_first_value post f d hcpre hcf hd,
   bfill_first_value post f d hvpre hvf hd⟩

/-- Witness for the amended C2 at the concrete panel of the counterexample:
date `0` precedes the first observation at `2` and receives close `10` and
volume `5`. -/
theorem bfill_entry_first_observation_witness :
    bfillOn ([0, 1] ++ 2 :: []) ex2Close 0 = some 10 ∧
    bfillOn ([0, 1] ++ 2 :: []) ex2Volume 0 = some 5 :=
  bfill_entry_first_observation [0, 1] [] 2 0 ex2Close ex2Volume 10 5
    (by decide) (by decide) (by decide) (by decide) (by decide)

/- ------------------------------------------------------------------ -/
/- C3                                                                  -/
/- ------------------------------------------------------------------ -/

/-- C3: for a delisted ticker whose reconciled fallback rows end at date `L`
strictly before the membership end date `ed`, every panel date from
`L + 1` business day through `ed` holds the last reconciled close price
in the close column and exactly zero in the volume column. -/
theorem delisted_tail_frozen (close volume : Int → Option ℚ)
    (f : List (Int × ℚ × ℚ)) (ed L : Int) (cL vL : ℚ)
    (hlast : f.getLast? = some (L, cL, vL))
    (d : Int) (h1 : L < d) (h2 : d ≤ ed) :
    (applyDelistedGapFill close volume f ed).1 d = some cL ∧
    (applyDelistedGapFill close volume f ed).2 d = some 0 := by
  have hLe : L < ed := lt_of_lt_of_le h1 h2
  have hrange : L + 1 ≤ d ∧ d ≤ ed := ⟨Int.add_one_le_iff.mpr h1, h2⟩
  unfold applyDelistedGapFill
  rw [hlast]
  simp [hLe, hrange]

/-- Witness for C3 at a concrete input: one reconciled row at date `0` with
close `7`, membership end `2`; date `1` gets close `7` and volume `0`. -/
theorem delisted_tail_frozen_witness :
    (applyDelistedGapFill (fun _ => none) (fun _ => none)
        [((0 : Int), (7 : ℚ), (3 : ℚ))] 2).1 1 = some 7 ∧
    (applyDelistedGapFill (fun _ => none) (fun _ => none)
        [((0 : Int), (7 : ℚ), (3 : ℚ))] 2).2 1 = some 0 :=
  delisted_tail_frozen (fun _ => none) (fun _ => none)
    [((0 : Int), (7 : ℚ), (3 : ℚ))] 2 0 7 3 rfl 1 (by decide) (by decide)

/- ------------------------------------------------------------------ -/
/- C4                                                                  -/
/- ------------------------------------------------------------------ -/

/-- C4: the multi-class correction fires exactly when the feed's current
scalar is present and the latest historical count exceeds it by more than
20% (`cur * 1.2 < latest`); when it fires, every point of the historical
series is multiplied by `cur / (implied if present else latest)` and cast to
an integer count; when it does not fire the series is unchanged.  In the
spec's scenario (latest `1000000`, current `700000`, no implied value) the
scaled latest value is exactly `700000` and every earlier point is scaled by
`700000 / 1000000 = 7/10`. -/
theorem shares_correction_trigger_and_scale :
    (∀ (c : ℚ) (impl : Option ℚ) (hist : List (Int × ℚ)) (dL : Int) (l : ℚ),
      hist.getLast? = some (dL, l) →
      c * (6 / 5) < l →
      sharesCorrection (some c) impl hist
        = .ok (hist.map (fun p =>
            (p.1, ((pytrunc (p.2 * (c / impl.getD l)) : ℤ) : ℚ)))))
    ∧ (∀ (c : ℚ) (impl : Option ℚ) (hist : List (Int × ℚ)) (dL : Int) (l : ℚ),
      hist.getLast? = some (dL, l) →
      ¬ c * (6 / 5) < l →
      sharesCorrection (some c) impl hist = .ok hist)
    ∧ (∀ (pre : List (Int × ℚ)) (dL : Int),
      sharesCorrection (some 700000) none (pre ++ [(dL, 1000000)])
        = .ok ((pre.map (fun p =>
            (p.1, ((pytrunc (p.2 * (7 / 10)) : ℤ) : ℚ)))) ++ [(dL, 700000)])) := by
  refine ⟨?_, ?_, ?_⟩
  · intro c impl hist dL l hlast hlt
    simp [sharesCorrection, hlast, hlt]
  · intro c impl hist dL l hlast hlt
    simp [sharesCorrection, hlast, hlt]
  · intro pre dL
    have hlast : (pre ++ [(dL, (1000000 : ℚ))]).getLast? = some (dL, 1000000) := by
      rw [List.getLast?_concat]
    have hlt : (700000 : ℚ) * (6 / 5) < 1000000 := by norm_num
    have hratio : (700000 : ℚ) / (Option.getD none (1000000 : ℚ)) = 7 / 10 := by
      norm_num [Option.getD]
    simp only [sharesCorrection, hlast, if_pos hlt, List.map_append, List.map_cons,
      List.map_nil, hratio]
    have hlastval : ((pytrunc ((1000000 : ℚ) * (7 / 10)) : ℤ) : ℚ) = 700000 := by
      norm_num [pytrunc]
    rw [hlastval]

/-- Witness for C4: the spec scenario with one earlier point `800000`; the
latest point becomes exactly `700000` and the earlier point `560000`. -/
theorem shares_correction_trigger_and_scale_witness :
    sharesCorrection (some 700000) none [((5 : Int), (800000 : ℚ)), (9, 1000000)]
      = .ok [((5 : Int), (560000 : ℚ)), (9, 700000)] := by
  have h := shares_correction_trigger_and_scale.2.2 [((5 : Int), (800000 : ℚ))] 9
  have h8 : ((pytrunc ((800000 : ℚ) * (7 / 10)) : ℤ) : ℚ) = 560000 := by
    norm_num [pytrunc]
  simpa [h8] using h

/- ------------------------------------------------------------------ -/
/- C5                                                                  -/
/- ------------------------------------------------------------------ -/

/-- C5: a delisted ticker (primary feed empty) with no shares-outstanding
override raises `ValueError` and the construction loop propagates the error,
so no metrics object is produced; a delisted ticker *with* an override
resolves to the override and never takes the feed path (the result does not
depend on any of the feed fields). -/
theorem missing_shares_override_fatal :
    (∀ t : TickerSharesInput, t.delisted = true → t.override = none →
      resolveSharesForTicker t = .error .valueError)
    ∧ (∀ (n : String) (s f₁ f₂ : List (Int × ℚ)) (c₁ c₂ i₁ i₂ : Option ℚ),
      resolveSharesForTicker ⟨n, true, some s, f₁, c₁, i₁⟩ = .ok s ∧
      resolveSharesForTicker ⟨n, true, some s, f₁, c₁, i₁⟩
        = resolveSharesForTicker ⟨n, true, some s, f₂, c₂, i₂⟩)
    ∧ (∀ l : List TickerSharesInput,
      (∃ t ∈ l, t.delisted = true ∧ t.override = none) →
      ∃ e, resolveAllShares l = .error e) := by
  refine ⟨?_, ?_, ?_⟩
  · intro t h1 h2
    simp [resolveSharesForTicker, h1, h2]
  · intro n s f₁ f₂ c₁ c₂ i₁ i₂
    exact ⟨rfl, rfl⟩
  · intro l hl
    induction l with
    | nil => simp at hl
    | cons t rest ih =>
      rcases hl with ⟨t', ht', hdel, hov⟩
      rcases List.mem_cons.mp ht' with h | h
      · subst h
        have herr : resolveSharesForTicker t' = .error .valueError := by
          simp [resolveSharesForTicker, hdel, hov]
        exact ⟨.valueError, by simp [resolveAllShares, herr]⟩
      · rcases ih ⟨t', h, hdel, hov⟩ with ⟨e, he⟩
        cases hres : resolveSharesForTicker t with
        | error e' => exact ⟨e', by simp [resolveAllShares, hres]⟩
        | ok s => exact ⟨e, by simp [resolveAllShares, hres, he]⟩

/-- Witness for C5: a one-element ticker list whose single ticker is delisted
and has no override makes the resolution loop fail. -/
theorem missing_shares_override_fatal_witness :
    (∃ t ∈ ([⟨"X", true, none, [], none, none⟩] : List TickerSharesInput),
      t.delisted = true ∧ t.override = none) ∧
    ∃ e, resolveAllShares
        ([⟨"X", true, none, [], none, none⟩] : List TickerSharesInput)
      = .error e :=
  ⟨⟨⟨"X", true, none, [], none, none⟩, by simp, rfl, rfl⟩,
   missing_shares_override_fatal.2.2 _
     ⟨⟨"X", true, none, [], none, none⟩, by simp, rfl, rfl⟩⟩

/- ------------------------------------------------------------------ -/
/- C6                                                                  -/
/- ------------------------------------------------------------------ -/

theorem length_setRet_le (r : List (String × Window)) (k : String) (v : Window) :
    (setRet r k v).length ≤ r.length + 1 := by
  induction r with
  | nil => simp [setRet]
  | cons p rest ih =>
    by_cases h : p.1 = k
    · simp [setRet, h]
    · simp only [setRet, if_neg h, List.length_cons]
      omega

theorem mem_keys_setRet_of_mem {r : List (String × Window)} {k' : String}
    (k : String) (v : Window) (h : k' ∈ keysOf r) :
    k' ∈ keysOf (setRet r k v) := by
  induction r with
  | nil => simp [keysOf, setRet] at h
  | cons p rest ih =>
    by_cases hpk : p.1 = k
    · simp only [keysOf, setRet, if_pos hpk, List.map_cons] at h ⊢
      rcases List.mem_cons.mp h with h | h
      · exact List.mem_cons.mpr (Or.inl (hpk ▸ h))
      · exact List.mem_cons.mpr (Or.inr h)
    · simp only [keysOf, setRet, if_neg hpk, List.map_cons] at h ⊢
      rcases List.mem_cons.mp h with h | h
      · exact List.mem_cons.mpr (Or.inl h)
      · exact List.mem_cons.mpr (Or.inr (ih h))

theorem mem_keys_setRet_self (r : List (String × Window)) (k : String) (v : Window) :
    k ∈ keysOf (setRet r k v) := by
  induction r with
  | nil => simp [keysOf, setRet]
  | cons p rest ih =>
    by_cases hpk : p.1 = k <;> simp [keysOf, setRet, hpk] at ih ⊢
    exact Or.inr ih

theorem length_setRet_of_mem {r : List (String × Window)} {k : String}
    (v : Window) (h : k ∈ keysOf r) :
    (setRet r k v).length = r.length := by
  induction r with
  | nil => simp [keysOf] at h
  | cons p rest ih =>
    by_cases hpk : p.1 = k
    · simp [setRet, hpk]
    · simp only [keysOf, List.map_cons, List.mem_cons] at h
      rcases h with h | h
      · exact absurd h.symm hpk
      · simp [setRet, hpk, ih h]

theorem mem_keys_of_lookup {r : List (String × Window)} {k : String} {w : Window}
    (h : lookupRet r k = some w) : k ∈ keysOf r := by
  unfold lookupRet at h
  cases hf : r.find? (fun p => p.1 == k) with
  | none => rw [hf] at h; exact absurd h (by simp)
  | some p =>
    have hp := List.find?_some hf
    have hmem := List.mem_of_find?_eq_some hf
    have : p.1 = k := by simpa using hp
    exact this ▸ List.mem_map_of_mem Prod.fst hmem

theorem applyAdds_ok (ts : Int) :
    ∀ (l : List String) (st st' : ReplayState), applyAdds ts st l = .ok st' →
      st'.ret.length = st.ret.length ∧ st'.allComponents = st.allComponents ∧
      ∀ k, k ∈ keysOf st.ret → k ∈ keysOf st'.ret := by
  intro l
  induction l with
  | nil =>
    intro st st' h
    cases h
    exact ⟨rfl, rfl, fun _ hk => hk⟩
  | cons a rest ih =>
    intro st st' h
    unfold applyAdds at h
    cases hl : lookupRet st.ret a with
    | none => rw [hl] at h; cases h
    | some w =>
      rw [hl] at h
      have hka := mem_keys_of_lookup hl
      rcases ih _ _ h with ⟨h1, h2, h3⟩
      refine ⟨?_, h2, ?_⟩
      · rw [h1]
        exact length_setRet_of_mem _ hka
      · intro k hk
        exact h3 k (mem_keys_setRet_of_mem _ _ hk)

theorem applyRemovals_deficit (start ts : Int) :
    ∀ (l : List String) (st : ReplayState) (n : ℕ),
      st.ret.length + n ≤ st.allComponents.length →
      (applyRemovals start ts st l).ret.length + n
        ≤ (applyRemovals start ts st l).allComponents.length := by
  intro l
  induction l with
  | nil => intro st n h; exact h
  | cons r rest ih =>
    intro st n h
    unfold applyRemovals
    apply ih
    simp only [List.length_append, List.length_singleton]
    have := length_setRet_le st.ret r (some start, some (ts - 1))
    omega

theorem applyRemovals_keys (start ts : Int) :
    ∀ (l : List String) (st : ReplayState) (k : String),
      k ∈ keysOf st.ret → k ∈ keysOf (applyRemovals start ts st l).ret := by
  intro l
  induction l with
  | nil => intro st k h; exact h
  | cons r rest ih =>
    intro st k h
    unfold applyRemovals
    exact ih _ k (mem_keys_setRet_of_mem _ _ h)

theorem applyRemovals_strict (start ts : Int) :
    ∀ (l : List String) (st : ReplayState) (t : String) (n : ℕ),
      t ∈ l → t ∈ keysOf st.ret →
      st.ret.length + n ≤ st.allComponents.length →
      (applyRemovals start ts st l).ret.length + (n + 1)
        ≤ (applyRemovals start ts st l).allComponents.length := by
  intro l
  induction l with
  | nil => intro st t n ht; cases ht
  | cons r rest ih =>
    intro st t n ht hk hd
    by_cases hrt : r = t
    · subst hrt
      unfold applyRemovals
      apply applyRemovals_deficit
      have hlen := length_setRet_of_mem (k := r)
        (some start, some (ts - 1)) hk
      simp only [hlen, List.length_append, List.length_singleton]
      omega
    · have htrest : t ∈ rest := by
        rcases List.mem_cons.mp ht with h | h
        · exact absurd h.symm hrt
        · exact h
      by_cases hrk : r ∈ keysOf st.ret
      · unfold applyRemovals
        apply applyRemovals_deficit
        have hlen := length_setRet_of_mem (k := r)
          (some start, some (ts - 1)) hrk
        simp only [hlen, List.length_append, List.length_singleton]
        omega
      · unfold applyRemovals
        apply ih _ t n htrest (mem_keys_setRet_of_mem _ _ hk)
        simp only [List.length_append, List.length_singleton]
        have := length_setRet_le st.ret r (some start, some (ts - 1))
        omega

theorem replayRows_deficit (start : Int) :
    ∀ (l : List ChangeRow) (st st' : ReplayState) (n : ℕ),
      st.ret.length + n ≤ st.allComponents.length →
      replayRows start st l = .ok st' →
      st'.ret.length + n ≤ st'.allComponents.length := by
  intro l
  induction l with
  | nil => intro st st' n hd h; cases h; exact hd
  | cons row rest ih =>
    intro st st' n hd h
    unfold replayRows at h
    by_cases hts : row.ts < start
    · rw [if_pos hts] at h; cases h; exact hd
    · rw [if_neg hts] at h
      cases ha : applyAdds row.ts st row.added with
      | error e => rw [ha] at h; cases h
      | ok st₁ =>
        rw [ha] at h
        rcases applyAdds_ok row.ts _ _ _ ha with ⟨h1, h2, _⟩
        apply ih _ _ n _ h
        apply applyRemovals_deficit
        rw [h1, h2]
        exact hd

theorem replayRows_strict (start : Int) :
    ∀ (l : List ChangeRow) (st : ReplayState) (t : String),
      t ∈ keysOf st.ret →
      st.ret.length ≤ st.allComponents.length →
      (∀ r ∈ l, start ≤ r.ts) →
      (∃ r ∈ l, t ∈ r.removed) →
      ∀ st', replayRows start st l = .ok st' →
        st'.ret.length < st'.allComponents.length := by
  intro l
  induction l with
  | nil => intro st t _ _ _ hrem; simp at hrem
  | cons row rest ih =>
    intro st t hk hd hin hrem st' h
    have hts : ¬ row.ts < start := not_lt.mpr (hin row (by simp))
    unfold replayRows at h
    rw [if_neg hts] at h
    cases ha : applyAdds row.ts st row.added with
    | error e => rw [ha] at h; cases h
    | ok st₁ =>
      rw [ha] at h
      rcases applyAdds_ok row.ts _ _ _ ha with ⟨h1, h2, h3⟩
      have hk₁ : t ∈ keysOf st₁.ret := h3 t hk
      have hd₁ : st₁.ret.length + 0 ≤ st₁.allComponents.length := by
        rw [h1, h2]; omega
      rcases hrem with ⟨r, hr, htr⟩
      rcases List.mem_cons.mp hr with hrow | hrrest
      · subst hrow
        have hstrict := applyRemovals_strict start r.ts r.removed st₁ t 0 htr hk₁ hd₁
        have := replayRows_deficit start rest _ st' 1 (by simpa using hstrict) h
        omega
      · have hd₂ := applyRemovals_deficit start row.ts row.removed st₁ 0 hd₁
        have hk₂ := applyRemovals_keys start row.ts row.removed st₁ t hk₁
        exact ih _ t hk₂ (by omega) (fun r' hr' => hin r' (by simp [hr']))
          ⟨r, hrrest, htr⟩ st' h

theorem initRet_keys (start : Int) :
    ∀ (cur : List String) (acc : List (String × Window)) (t : String),
      t ∈ cur ∨ t ∈ keysOf acc →
      t ∈ keysOf (cur.foldl (fun acc t => setRet acc t (some start, none)) acc) := by
  intro cur
  induction cur with
  | nil =>
    intro acc t h
    rcases h with h | h
    · cases h
    · exact h
  | cons a cur ih =>
    intro acc t h
    simp only [List.foldl_cons]
    rcases h with h | h
    · rcases List.mem_cons.mp h with h | h
      · subst h
        exact ih _ t (Or.inr (mem_keys_setRet_self _ _ _))
      · exact ih _ t (Or.inl h)
    · exact ih _ t (Or.inr (mem_keys_setRet_of_mem _ _ h))

theorem initRet_length (start : Int) :
    ∀ (cur : List String) (acc : List (String × Window)),
      (cur.foldl (fun acc t => setRet acc t (some start, none)) acc).length
        ≤ acc.length + cur.length := by
  intro cur
  induction cur with
  | nil => intro acc; simp
  | cons a cur ih =>
    intro acc
    simp only [List.foldl_cons, List.length_cons]
    have h1 := ih (setRet acc a (some start, none))
    have h2 := length_setRet_le acc a (some start, none)
    omega

/-- Counterexample for C6 at a concrete input.  In `ex6Rows` the ticker `A`
(a current member) is added at date `3` and again at date `5` with no
removal of `A` in between — the claim's condition holds — yet the
construction returns a membership map instead of raising: the second
(earlier) start assignment silently overwrites the first. -/
theorem duplicate_add_not_detected :
    claimHasDupAdd 0 ex6Rows = true ∧
    get_sp500_historical_components 0 ["A"] ex6Rows
      = .ok [("A", (some 3, none)), ("C", (some 0, some 4)),
             ("B", (some 0, some 2))] := by
  constructor <;> rfl

/-- C6 as amended: the backward replay does not detect two window-start
assignments without an intervening removal (a duplicated addition silently
keeps the earlier start).  What raises the error is a ticker occurring twice
in the accumulated component list; in particular, whenever a current member
is also named in the removed column of an in-range change row (so the ticker
held two membership windows), the construction raises an error rather than
returning a map. -/
theorem duplicate_window_membership_error (start : Int) (current : List String)
    (rows : List ChangeRow) (t : String)
    (hcur : t ∈ current)
    (hin : ∀ r ∈ rows, start ≤ r.ts)
    (hrem : ∃ r ∈ rows, t ∈ r.removed) :
    ∃ e, get_sp500_historical_components start current rows = .error e := by
  unfold get_sp500_historical_components
  cases h : replayRows start ⟨initRet start current, current⟩ rows.reverse with
  | error e => exact ⟨e, rfl⟩
  | ok st' =>
    have hk0 : t ∈ keysOf (initRet start current) :=
      initRet_keys start current [] t (Or.inl hcur)
    have hd0 : (initRet start current).length ≤ current.length := by
      have := initRet_length start current []
      simpa using this
    have hin' : ∀ r ∈ rows.reverse, start ≤ r.ts := by
      intro r hr
      exact hin r (List.mem_reverse.mp hr)
    have hrem' : ∃ r ∈ rows.reverse, t ∈ r.removed := by
      rcases hrem with ⟨r, hr, htr⟩
      exact ⟨r, List.mem_reverse.mpr hr, htr⟩
    have hlt := replayRows_strict start rows.reverse
      ⟨initRet start current, current⟩ t hk0 hd0 hin' hrem' st' h
    exact ⟨.valueError, by simp [hlt]⟩

/-- Witness for the amended C6: current member `A` is also removed by the
in-range change row at date `2`, and construction fails. -/
theorem duplicate_window_membership_error_witness :
    ("A" ∈ ["A"]) ∧ (∀ r ∈ [ChangeRow.mk 2 [] ["A"]], (0 : Int) ≤ r.ts) ∧
    (∃ r ∈ [ChangeRow.mk 2 [] ["A"]], "A" ∈ r.removed) ∧
    ∃ e, get_sp500_historical_components 0 ["A"] [ChangeRow.mk 2 [] ["A"]]
      = .error e :=
  ⟨by simp, by simp, ⟨ChangeRow.mk 2 [] ["A"], by simp, by simp⟩,
   duplicate_window_membership_error 0 ["A"] [ChangeRow.mk 2 [] ["A"]] "A"
     (by simp) (by simp) ⟨ChangeRow.mk 2 [] ["A"], by simp, by simp⟩⟩

/- ------------------------------------------------------------------ -/
/- C7                                                                  -/
/- ------------------------------------------------------------------ -/

/-- C7 records a code bug: when no benchmark index ticker is configured,
`self.stock_index_data` is never assigned (lines 156-159 assign it only
under `if stock_index is not None:`), so for every smoothing factor and
frequency `get_annual_volatility` raises `AttributeError` instead of
returning the `None` sentinel that its own `is None` check (line 314) was
written to produce. -/
theorem annual_volatility_missing_attribute :
    ∀ (α β : Type) (fetchAdjClose : String → α)
      (volPipeline : ℚ → (Int → Int) → α → β) (alpha : ℚ) (freq : Int → Int),
      get_annual_volatility (metricsInitStockIndex none fetchAdjClose)
          (volPipeline alpha freq) = .error .attributeError
      ∧ ∀ r, get_annual_volatility (metricsInitStockIndex none fetchAdjClose)
          (volPipeline alpha freq) ≠ .ok r := by
  intro α β fetchAdjClose volPipeline alpha freq
  exact ⟨rfl, fun r h => Except.noConfusion h⟩

/- ------------------------------------------------------------------ -/
/- C8                                                                  -/
/- ------------------------------------------------------------------ -/

theorem subsetSeriesE_ok_exists (tickersL : List TickerData)
    (f g : String → Int → ℚ) :
    ∀ (l : List String) (acc : Int → Option ℚ),
      (∀ name ∈ l, ∃ td ∈ tickersL, td.name = name) →
      ∃ r, subsetSeriesE tickersL f g l acc = .ok r := by
  intro l
  induction l with
  | nil => intro acc _; exact ⟨acc, rfl⟩
  | cons t rest ih =>
    intro acc h
    obtain ⟨td, htd, hname⟩ := h t (by simp)
    cases hf : tickersL.find? (fun td => td.name == t) with
    | none =>
      exfalso
      have := List.find?_eq_none.mp hf td htd
      simp [hname] at this
    | some td' =>
      obtain ⟨r, hr⟩ := ih
        (fun d => match acc d with
          | none => none
          | some a =>
            if inWindow td'.window d then some (a + f t d * g t d) else none)
        (fun name hn => h name (by simp [hn]))
      exact ⟨r, by simp [subsetSeriesE, hf, hr]⟩

/-- C8 records a code bug: for every frequency and every subset of tracked
tickers, `get_capitalization(frequency, tickers)` raises `AttributeError`
instead of returning the resampled subset series, because line 179 reads
`ret.resample(frequency).mean().ret.dropna()` — the stray `.ret` attribute
access on the resampled `Series` always fails. -/
theorem subset_capitalization_attribute_error (dates : List Int)
    (period : Int → Int) (tickersL : List TickerData)
    (close shares : String → Int → ℚ) (ts : List String)
    (h : ∀ name ∈ ts, ∃ td ∈ tickersL, td.name = name) :
    get_capitalization dates period tickersL close shares (some ts)
      = .error .attributeError := by
  obtain ⟨r, hr⟩ := subsetSeriesE_ok_exists tickersL close shares ts
    (fun _ => some 0) h
  simp [get_capitalization, hr]

/-- Witness for C8: asking for the subset `["A"]` of the one tracked ticker
raises. -/
theorem subset_capitalization_attribute_error_witness :
    (∀ name ∈ ["A"], ∃ td ∈ ex9Tickers, td.name = name) ∧
    get_capitalization ex9Dates ex9Period ex9Tickers ex9Close ex9Shares
        (some ["A"])
      = .error .attributeError :=
  ⟨by decide,
   subset_capitalization_attribute_error ex9Dates ex9Period ex9Tickers
     ex9Close ex9Shares ["A"] (by decide)⟩

/- ------------------------------------------------------------------ -/
/- C9                                                                  -/
/- ------------------------------------------------------------------ -/

theorem filterMap_some_fn (l : List Int) (h : Int → ℚ) :
    l.filterMap (fun d => some (h d)) = l.map h := by
  induction l with
  | nil => rfl
  | cons a l ih => simp [List.filterMap_cons, ih]

theorem filterMap_ite_fn (l : List Int) (c : Int → Bool) (h : Int → ℚ) :
    l.filterMap (fun d => if c d then some (h d) else none)
      = (l.filter c).map h := by
  induction l with
  | nil => rfl
  | cons a l ih =>
    by_cases hc : c a = true <;>
      simp [List.filterMap_cons, List.filter_cons, hc, ih]

theorem subsetSeriesE_val (tickersL : List TickerData)
    (f g : String → Int → ℚ) :
    ∀ (l : List String) (acc r : Int → Option ℚ),
      subsetSeriesE tickersL f g l acc = .ok r →
      ∀ d, r d = (acc d).bind (fun a =>
        if l.all (fun t => inWindow (windowOfTicker tickersL t) d) then
          some (a + (l.map (fun t => f t d * g t d)).sum)
        else none) := by
  intro l
  induction l with
  | nil =>
    intro acc r h d
    cases h
    cases acc d <;> simp
  | cons t rest ih =>
    intro acc r h d
    unfold subsetSeriesE at h
    cases hf : tickersL.find? (fun td => td.name == t) with
    | none => rw [hf] at h; cases h
    | some td =>
      rw [hf] at h
      have hw : windowOfTicker tickersL t = td.window := by
        simp [windowOfTicker, hf]
      rw [ih _ r h d]
      cases hacc : acc d with
      | none => simp
      | some a =>
        by_cases hwd : inWindow td.window d = true
        · by_cases hall :
            rest.all (fun t => inWindow (windowOfTicker tickersL t) d) = true
          · simp [hw, hwd, hall, add_assoc]
          · simp [hw, hwd, hall]
        · simp [hw, hwd]

/-- C9: for every frequency (period map) and for both the whole-market path
and any subset of tracked tickers, `get_daily_turnover` divides trading
value by capitalization *date by date* and only then averages these daily
ratios within each resampling period (mean of ratios); the third conjunct
exhibits a concrete panel on which the produced value `5/4` differs from
the ratio of the period-averaged trading value to the period-averaged
capitalization (`4/3`), so the query is not computing a ratio of
averages. -/
theorem daily_turnover_mean_of_ratios :
    (∀ (dates : List Int) (period : Int → Int) (tickersL : List TickerData)
      (close volume shares : String → Int → ℚ),
      get_daily_turnover dates period tickersL close volume shares none
        = .ok (fun p =>
            if (dates.filter (fun d => period d == p)).length = 0 then none
            else some (((dates.filter (fun d => period d == p)).map
                (fun d => turnoverValueSeries tickersL close volume d
                  / capitalizationSeries tickersL close shares d)).sum
              / ((dates.filter (fun d => period d == p)).length : ℚ))))
    ∧ (∀ (dates : List Int) (period : Int → Int) (tickersL : List TickerData)
      (close volume shares : String → Int → ℚ) (ts : List String),
      (∀ name ∈ ts, ∃ td ∈ tickersL, td.name = name) →
      ∃ r, get_daily_turnover dates period tickersL close volume shares (some ts)
          = .ok r ∧
        ∀ p, r p =
          (if ((dates.filter (fun d => period d == p)).filter
              (fun d => ts.all
                (fun name => inWindow (windowOfTicker tickersL name) d))).length
              = 0 then none
           else some ((((dates.filter (fun d => period d == p)).filter
              (fun d => ts.all
                (fun name => inWindow (windowOfTicker tickersL name) d))).map
              (fun d => (ts.map (fun name => close name d * volume name d)).sum
                / (ts.map (fun name => close name d * shares name d)).sum)).sum
             / (((dates.filter (fun d => period d == p)).filter
              (fun d => ts.all
                (fun name => inWindow (windowOfTicker tickersL name) d))).length
              : ℚ))))
    ∧ (∃ r, get_daily_turnover ex9Dates ex9Period ex9Tickers ex9Close
          ex9Volume ex9Shares none = .ok r
        ∧ r 0 = some (5 / 4)
        ∧ resampleMean ex9Dates ex9Period
            (fun d => some (turnoverValueSeries ex9Tickers ex9Close ex9Volume d)) 0
            = some 2
        ∧ resampleMean ex9Dates ex9Period
            (fun d => some (capitalizationSeries ex9Tickers ex9Close ex9Shares d)) 0
            = some (3 / 2)
        ∧ ¬ ((5 : ℚ) / 4 = 2 / (3 / 2))) := by
  refine ⟨?_, ?_, ?_⟩
  · intro dates period tickersL close volume shares
    simp only [get_daily_turnover, get_daily_trading_value_ds]
    congr 1
    funext p
    show resampleMean dates period
      (fun d => some (turnoverValueSeries tickersL close volume d
        / capitalizationSeries tickersL close shares d)) p = _
    simp only [resampleMean]
    rw [filterMap_some_fn]
    simp [List.length_map]
  · intro dates period tickersL close volume shares ts h
    obtain ⟨tv, htv⟩ := subsetSeriesE_ok_exists tickersL close volume ts
      (fun _ => some 0) h
    obtain ⟨cap, hcap⟩ := subsetSeriesE_ok_exists tickersL close shares ts
      (fun _ => some 0) h
    have heq : get_daily_turnover dates period tickersL close volume shares
        (some ts)
        = .ok (resampleMean dates period (fun d => match tv d, cap d with
            | some a, some b => some (a / b)
            | _, _ => none)) := by
      simp [get_daily_turnover, get_daily_trading_value_ds, htv, hcap]
    refine ⟨_, heq, ?_⟩
    intro p
    have hratio : (fun d => match tv d, cap d with
        | some a, some b => some (a / b)
        | _, _ => none)
        = fun d =>
          if ts.all (fun name => inWindow (windowOfTicker tickersL name) d) then
            some ((ts.map (fun name => close name d * volume name d)).sum
              / (ts.map (fun name => close name d * shares name d)).sum)
          else none := by
      funext d
      rw [subsetSeriesE_val tickersL close volume ts (fun _ => some 0) tv htv d,
        subsetSeriesE_val tickersL close shares ts (fun _ => some 0) cap hcap d]
      by_cases hall :
          ts.all (fun name => inWindow (windowOfTicker tickersL name) d) = true
      · simp [hall]
      · simp [hall]
    rw [hratio]
    simp only [resampleMean]
    rw [filterMap_ite_fn]
    simp [List.length_map]
  · have ht0 : turnoverValueSeries ex9Tickers ex9Close ex9Volume 0 = 1 := by
      norm_num [turnoverValueSeries, ex9Tickers, ex9Close, ex9Volume, inWindow]
    have ht1 : turnoverValueSeries ex9Tickers ex9Close ex9Volume 1 = 3 := by
      norm_num [turnoverValueSeries, ex9Tickers, ex9Close, ex9Volume, inWindow]
    have hc0 : capitalizationSeries ex9Tickers ex9Close ex9Shares 0 = 1 := by
      norm_num [capitalizationSeries, ex9Tickers, ex9Close, ex9Shares, inWindow]
    have hc1 : capitalizationSeries ex9Tickers ex9Close ex9Shares 1 = 2 := by
      norm_num [capitalizationSeries, ex9Tickers, ex9Close, ex9Shares, inWindow]
    refine ⟨_, rfl, ?_, ?_, ?_, ?_⟩
    · norm_num [resampleMean, ex9Dates, ex9Period, List.filter_cons,
        List.filter_nil, List.filterMap_cons, List.filterMap_nil,
        ht0, ht1, hc0, hc1]
    · norm_num [resampleMean, ex9Dates, ex9Period, List.filter_cons,
        List.filter_nil, List.filterMap_cons, List.filterMap_nil, ht0, ht1]
    · norm_num [resampleMean, ex9Dates, ex9Period, List.filter_cons,
        List.filter_nil, List.filterMap_cons, List.filterMap_nil, hc0, hc1]
    · norm_num

/-- Witness for C9: the subset path at the concrete two-date panel returns
the mean of the two daily ratios, `5/4`. -/
theorem daily_turnover_mean_of_ratios_witness :
    (∀ name ∈ ["A"], ∃ td ∈ ex9Tickers, td.name = name) ∧
    ∃ r, get_daily_turnover ex9Dates ex9Period ex9Tickers ex9Close ex9Volume
        ex9Shares (some ["A"]) = .ok r ∧ r 0 = some (5 / 4) := by
  obtain ⟨r, hr, hp⟩ := daily_turnover_mean_of_ratios.2.1 ex9Dates ex9Period
    ex9Tickers ex9Close ex9Volume ex9Shares ["A"] (by decide)
  refine ⟨by decide, r, hr, ?_⟩
  rw [hp 0]
  norm_num [ex9Dates, ex9Period, ex9Tickers, ex9Close, ex9Volume, ex9Shares,
    windowOfTicker, inWindow, List.find?, List.filter_cons, List.filter_nil,
    List.all_cons, List.all_nil, List.map_cons, List.map_nil]

/- ------------------------------------------------------------------ -/
/- C10                                                                 -/
/- ------------------------------------------------------------------ -/

theorem foldl_val_add {α : Type} (L : List α) (p : α → Bool) (g : α → ℚ)
    (c : ℚ) :
    L.foldl (fun acc t => if p t then acc + g t else acc) c
      = c + (L.map (fun t => if p t then g t else 0)).sum := by
  induction L generalizing c with
  | nil => simp
  | cons a L ih =>
    simp only [List.foldl_cons, List.map_cons, List.sum_cons]
    rw [ih]
    by_cases h : p a = true
    · simp [h]; ring
    · simp [h]

theorem dividendYieldNumerator_eq_sum (tickers : List TickerData)
    (close shares : String → Int → ℚ) (lastDate : Int) :
    dividendYieldNumerator tickers close shares lastDate
      = (tickers.map (fun t =>
          if t.window.2.isNone then
            close t.name lastDate * shares t.name lastDate
              * resolveDividendYield t.feedDividendYield
          else 0)).sum := by
  have h := foldl_val_add tickers (fun t => t.window.2.isNone)
    (fun t => close t.name lastDate * shares t.name lastDate
      * resolveDividendYield t.feedDividendYield) 0
  simpa [dividendYieldNumerator] using h

/-- C10: a currently active ticker whose feed reports no dividend yield is
recorded with a yield of exactly `0`; its numerator contribution to the
forward dividend yield vanishes (removing it from the list leaves the
numerator unchanged), while its `close × shares` still enters the
denominator (the aggregate capitalization at the last date), so the
resulting aggregate yield is at most the yield computed with the ticker
excluded from the weighting. -/
theorem zero_dividend_yield_weighting (l₁ l₂ : List TickerData)
    (t : TickerData) (close shares : String → Int → ℚ) (lastDate : Int)
    (hy : t.feedDividendYield = none)
    (hcur : t.window.2 = none)
    (hwin : inWindow t.window lastDate = true)
    (hN : 0 ≤ dividendYieldNumerator (l₁ ++ l₂) close shares lastDate)
    (hD : 0 < capitalizationSeries (l₁ ++ l₂) close shares lastDate)
    (hc : 0 ≤ close t.name lastDate * shares t.name lastDate) :
    resolveDividendYield t.feedDividendYield = 0 ∧
    dividendYieldNumerator (l₁ ++ t :: l₂) close shares lastDate
      = dividendYieldNumerator (l₁ ++ l₂) close shares lastDate ∧
    capitalizationSeries (l₁ ++ t :: l₂) close shares lastDate
      = capitalizationSeries (l₁ ++ l₂) close shares lastDate
        + close t.name lastDate * shares t.name lastDate ∧
    forwardDividendYield (l₁ ++ t :: l₂) close shares lastDate
      ≤ forwardDividendYield (l₁ ++ l₂) close shares lastDate := by
  have hy0 : resolveDividendYield t.feedDividendYield = 0 := by
    rw [hy]; rfl
  have hnum : dividendYieldNumerator (l₁ ++ t :: l₂) close shares lastDate
      = dividendYieldNumerator (l₁ ++ l₂) close shares lastDate := by
    rw [dividendYieldNumerator_eq_sum, dividendYieldNumerator_eq_sum]
    simp [List.map_append, List.sum_append, hy0, hcur]
  have hcap : capitalizationSeries (l₁ ++ t :: l₂) close shares lastDate
      = capitalizationSeries (l₁ ++ l₂) close shares lastDate
        + close t.name lastDate * shares t.name lastDate := by
    rw [capitalizationSeries_eq_sum, capitalizationSeries_eq_sum]
    simp [List.map_append, List.sum_append, hwin]
    ring
  refine ⟨hy0, hnum, hcap, ?_⟩
  unfold forwardDividendYield
  rw [hnum, hcap]
  have hDc : 0 < capitalizationSeries (l₁ ++ l₂) close shares lastDate
      + close t.name lastDate * shares t.name lastDate := by linarith
  rw [div_le_div_iff₀ hDc hD]
  nlinarith [mul_nonneg hN hc]

/-- Witness for C10: with one yield-reporting ticker `Y` (yield `5%`) and a
current ticker `Z` whose feed reports no yield, including `Z` can only lower
the aggregate yield. -/
theorem zero_dividend_yield_weighting_witness :
    (0 : ℚ) ≤ dividendYieldNumerator ([] ++ [ex10Other])
        (fun _ _ => 1) (fun _ _ => 1) 9 ∧
    forwardDividendYield ([] ++ ex10Current :: [ex10Other])
        (fun _ _ => 1) (fun _ _ => 1) 9
      ≤ forwardDividendYield ([] ++ [ex10Other])
        (fun _ _ => 1) (fun _ _ => 1) 9 :=
  ⟨by norm_num [dividendYieldNumerator, ex10Other, resolveDividendYield],
   (zero_dividend_yield_weighting [] [ex10Other] ex10Current
     (fun _ _ => 1) (fun _ _ => 1) 9 rfl rfl (by decide)
     (by norm_num [dividendYieldNumerator, ex10Other, resolveDividendYield])
     (by norm_num [capitalizationSeries, ex10Other, inWindow])
     (by norm_num)).2.2.2⟩

end USEcon
